import Mathlib

/-!
Verification of the expense aggregation & analytics core of the
Finance_tracker repository (five near-duplicate dashboard scripts:
`expense_tracker.py`, `app.py`, `3.py`, `new.py`, `xy.py`).

The scripts' pandas pipelines are shallowly embedded here:

* cell values (dates, categories, amounts) arrive as strings; a string is
  modelled as its list of character codes (`Str := List Nat`), so that the
  Python string primitives used by the code (`str.title`, `str.strip`,
  numeric/date parsing) become explicit recursive functions over codes;
* `pd.to_datetime(..., errors="coerce")` / `pd.to_numeric(..., errors="coerce")`
  are modelled by `parseDate` / `parseAmount`, which return `none` exactly
  where the library call yields `NaT`/`NaN` (the claims under verification
  quantify over the parse outcome, not over the exact accepted formats, so the
  parsers implement the plain `YYYY-MM-DD` and decimal-literal formats);
* amounts are exact rationals (`ℚ`): every float the scripts manipulate is
  finite, and the flagged comparisons (`|z| > 2.5`) are reformulated
  square-free where a square root would leave `ℚ`;
* dataframe columns become fields of a row structure, dataframes become lists
  of rows, `groupby(...).sum()` becomes key dedup + filtered sums, and the
  sorts (`sort_index`, `sort_values`) become `List.insertionSort`;
* the in-place pandas mutations of `app.py`/`3.py` (`dropna(..., inplace=True)`,
  column assignment) are modelled by explicit state passing: the function
  returns both the value used downstream and the content of the caller's
  table object after the step.
-/

/-- A Python string, as its list of Unicode code points. -/
abbrev Str := List Nat

/-- Code points of a Lean string literal; used only to spell concrete inputs. -/
def strCodes (s : String) : Str := s.data.map Char.toNat

/-- Whitespace as recognised by `str.strip` (ASCII part: space, tab, LF, CR). -/
def isSpaceCode (n : Nat) : Bool := n = 32 || n = 9 || n = 10 || n = 13

/-- ASCII uppercase letter. -/
def isUpperCode (n : Nat) : Bool := 65 ≤ n && n ≤ 90

/-- ASCII lowercase letter. -/
def isLowerCode (n : Nat) : Bool := 97 ≤ n && n ≤ 122

/-- Alphabetic (cased) character, ASCII range of Python's `str.isalpha`. -/
def isAlphaCode (n : Nat) : Bool := isUpperCode n || isLowerCode n

/-- ASCII case mapping of `str.upper` on one character. -/
def toUpperCode (n : Nat) : Nat := if isLowerCode n then n - 32 else n

/-- ASCII case mapping of `str.lower` on one character. -/
def toLowerCode (n : Nat) : Nat := if isUpperCode n then n + 32 else n

/-- One step of `str.title`: an alphabetic character is uppercased when the
previous character was not alphabetic, lowercased otherwise. -/
def titleChar (prev : Bool) (c : Nat) : Nat :=
  if isAlphaCode c then (if prev then toLowerCode c else toUpperCode c) else c

/-- `str.title`, threading "previous character was alphabetic" through the string. -/
def titleAux : Bool → Str → Str
  | _, [] => []
  | prev, c :: cs => titleChar prev c :: titleAux (isAlphaCode c) cs

/-- Python `str.title()`. -/
def titleCase (s : Str) : Str := titleAux false s

/-- Python `str.strip()`: drop whitespace from both ends. -/
def stripStr (s : Str) : Str :=
  ((s.dropWhile isSpaceCode).reverse.dropWhile isSpaceCode).reverse

/-- The category/user normalization `.astype(str).str.title().str.strip()`
(`expense_tracker.py` line 106, `3.py` lines 97 and 100). -/
def normLabel (s : Str) : Str := stripStr (titleCase s)

/-- ASCII digit. -/
def isDigitCode (n : Nat) : Bool := 48 ≤ n && n ≤ 57

/-- Split a string at every occurrence of the separator code. -/
def splitCode (sep : Nat) : Str → List Str
  | [] => [[]]
  | c :: cs =>
    if c = sep then [] :: splitCode sep cs
    else
      match splitCode sep cs with
      | [] => [[c]]
      | p :: ps => (c :: p) :: ps

/-- Numeric value of a digit string. -/
def digitsVal (s : Str) : Nat := s.foldl (fun a d => a * 10 + (d - 48)) 0

/-- A calendar date. -/
structure Date where
  year : Nat
  month : Nat
  day : Nat
deriving DecidableEq, Repr

/-- `pd.to_datetime(..., errors="coerce")` on one cell: `none` models `NaT`.
The accepted format is `YYYY-MM-DD`. -/
def parseDate (s : Str) : Option Date :=
  match splitCode 45 s with
  | [y, m, d] =>
    if !y.isEmpty && !m.isEmpty && !d.isEmpty
        && y.all isDigitCode && m.all isDigitCode && d.all isDigitCode then
      let mv := digitsVal m
      let dv := digitsVal d
      if 1 ≤ mv && mv ≤ 12 && 1 ≤ dv && dv ≤ 31 then
        some ⟨digitsVal y, mv, dv⟩
      else none
    else none
  | _ => none

/-- `pd.to_numeric(..., errors="coerce")` on one cell: `none` models `NaN`.
Accepted: optional sign, then a decimal literal. -/
def parseAmount (s : Str) : Option ℚ :=
  let core : Str → Option ℚ := fun t =>
    match splitCode 46 t with
    | [ip] =>
      if !ip.isEmpty && ip.all isDigitCode then some (digitsVal ip) else none
    | [ip, fp] =>
      if (!ip.isEmpty || !fp.isEmpty) && ip.all isDigitCode && fp.all isDigitCode then
        some ((digitsVal ip : ℚ) + (digitsVal fp : ℚ) / (10 : ℚ) ^ fp.length)
      else none
    | _ => none
  match s with
  | 45 :: r => (core r).map (fun q => -q)
  | 43 :: r => core r
  | r => core r

/-- A raw input row, as read from the CSV: all three cells are strings
(columns already resolved/renamed to Date, Category, Amount). -/
structure RawRow where
  dateStr : Str
  category : Str
  amountStr : Str
deriving DecidableEq, Repr

/-- A cleaned transaction (`expense_tracker.py` lines 101-106): parsed date,
normalized category, numeric amount. -/
structure Txn where
  date : Date
  category : Str
  amount : ℚ
deriving DecidableEq, Repr

/-- Cleaning of one row (`expense_tracker.py` lines 101-106, `3.py` 92-97):
the date is parsed and the row dropped on failure (`dropna(subset=["Date"])`);
the amount is parsed with failures coerced to 0 (`to_numeric(...).fillna(0)`);
the category is title-cased and stripped. -/
def cleanRow (r : RawRow) : Option Txn :=
  match parseDate r.dateStr with
  | none => none
  | some d =>
    some { date := d, category := normLabel r.category,
           amount := (parseAmount r.amountStr).getD 0 }

/-- The cleaning pipeline over the whole table. -/
def cleanRows (rows : List RawRow) : List Txn := rows.filterMap cleanRow

/-- The `(year, month)` period key (`df["YearMonth"] = df["Date"].dt.to_period("M")`,
the monthly aggregation grain). -/
def periodKey (t : Txn) : Nat × Nat := (t.date.year, t.date.month)

/-- Chronological (lexicographic) order on period keys: the order `sort_index()`
induces on the zero-padded `YYYY-MM` strings. -/
def pkeyLe (a b : Nat × Nat) : Prop := a.1 < b.1 ∨ (a.1 = b.1 ∧ a.2 ≤ b.2)

/-- Strictly earlier period. -/
def pkeyLt (a b : Nat × Nat) : Prop := a.1 < b.1 ∨ (a.1 = b.1 ∧ a.2 < b.2)

instance : DecidableRel pkeyLe := fun a b =>
  inferInstanceAs (Decidable (_ ∨ _))

instance : DecidableRel pkeyLt := fun a b =>
  inferInstanceAs (Decidable (_ ∨ _))

instance : IsTotal (Nat × Nat) pkeyLe := ⟨by intro a b; unfold pkeyLe; omega⟩

instance : IsTrans (Nat × Nat) pkeyLe := ⟨by intro a b c; unfold pkeyLe; omega⟩

/-- Sum of the Amount column. -/
def sumAmounts (txns : List Txn) : ℚ := (txns.map Txn.amount).sum

/-- `monthly = filtered.groupby("YearMonth")["Amount"].sum().sort_index()`
(`expense_tracker.py` line 161, `3.py` line 148): one row per distinct period
key, carrying the sum of that period's amounts, keys sorted ascending. -/
def totalByPeriod (txns : List Txn) : List ((Nat × Nat) × ℚ) :=
  (List.insertionSort pkeyLe (txns.map periodKey).dedup).map
    (fun k => (k, sumAmounts (txns.filter (fun t => periodKey t = k))))

/-- `category_totals = filtered.groupby("Category")["Amount"].sum().sort_values(ascending=False)`
(`expense_tracker.py` line 162): one row per distinct category, sorted by total
descending. -/
def totalByCategory (txns : List Txn) : List (Str × ℚ) :=
  List.insertionSort (fun a b => b.2 ≤ a.2)
    (((txns.map Txn.category).dedup).map
      (fun c => (c, sumAmounts (txns.filter (fun t => t.category = c)))))

/-- `np.polyfit(x, y, 1)` for `x = 0..n-1`: the degree-1 least-squares
`(slope, intercept)` by the normal equations. (The singular fallback is never
reached for two or more distinct sample points.) -/
def polyfit1 (ys : List ℚ) : ℚ × ℚ :=
  let n : ℚ := ys.length
  let xs : List ℚ := (List.range ys.length).map (fun i => (i : ℚ))
  let sx := xs.sum
  let sy := ys.sum
  let sxx := (xs.map (fun x => x * x)).sum
  let sxy := (List.zipWith (fun x y => x * y) xs ys).sum
  let d := n * sxx - sx * sx
  if d = 0 then (0, 0)
  else ((n * sxy - sx * sy) / d, (sxx * sy - sx * sxy) / d)

/-- `np.polyval` on a degree-1 fit. -/
def polyval1 (c : ℚ × ℚ) (x : ℚ) : ℚ := c.1 * x + c.2

/-- The forecast (`expense_tracker.py` lines 182-190): present only when the
monthly series has at least 3 periods, in which case it is the trend line
evaluated at the next period index `len(monthly)`; otherwise `None`. -/
def forecastNext (txns : List Txn) : Option ℚ :=
  let monthly := totalByPeriod txns
  if 3 ≤ monthly.length then
    some (polyval1 (polyfit1 (monthly.map (fun r => r.2))) (monthly.length : ℚ))
  else none

/-- One row of the budget comparison table. -/
structure BudgetEntry where
  category : Str
  actual : ℚ
  budget : ℚ
  percent : ℚ
deriving DecidableEq, Repr

/-- `category_totals.get(c, 0.0)`: total of a category, 0 when absent. -/
def categoryTotal (txns : List Txn) (c : Str) : ℚ :=
  sumAmounts (txns.filter (fun t => t.category = c))

/-- `budget_df["Pct"] = (Actual / Budget.replace({0: nan})) * 100` then
`fillna(0)` (`expense_tracker.py` lines 172-173): a zero budget yields 0
instead of a division by zero. -/
def budgetPct (actual budget : ℚ) : ℚ :=
  if budget = 0 then 0 else actual / budget * 100

/-- The budget comparison table (`expense_tracker.py` lines 167-173), sorted
by percent descending (`sort_values("Pct", ascending=False)`). -/
def budgetTable (cats : List Str) (budgets : Str → ℚ) (txns : List Txn) :
    List BudgetEntry :=
  List.insertionSort (fun a b => b.percent ≤ a.percent)
    (cats.map (fun c =>
      { category := c, actual := categoryTotal txns c, budget := budgets c,
        percent := budgetPct (categoryTotal txns c) (budgets c) }))

/-- The Amount column of one category's group. -/
def catAmounts (txns : List Txn) (c : Str) : List ℚ :=
  (txns.filter (fun t => t.category = c)).map Txn.amount

/-- Arithmetic mean (`ℚ` division by 0 yields 0; the scripts only take means
of nonempty groups). -/
def listMean (l : List ℚ) : ℚ := l.sum / l.length

/-- Population variance, the square of `scipy.stats.zscore`'s default (ddof=0)
standard deviation. -/
def popVar (l : List ℚ) : ℚ :=
  ((l.map (fun a => (a - listMean l) ^ 2)).sum) / l.length

/-- The squared z-score of a value against its group
(`stats.zscore`, `expense_tracker.py` line 246). `scipy` divides by the
standard deviation, producing `NaN` on a zero-variance group; `none` models
that `NaN`. On a positive-variance group the square `(a-μ)²/σ²` is returned,
so that the threshold test `|z| > 2.5` becomes the `ℚ`-expressible
`z² > 2.5²` without leaving the rationals for `sqrt`. -/
def zsqScore (l : List ℚ) (a : ℚ) : Option ℚ :=
  if popVar l = 0 then none else some ((a - listMean l) ^ 2 / popVar l)

/-- The anomaly test `filtered["zscore"].abs() > 2.5` on one transaction
(`expense_tracker.py` lines 246-247); pandas' `NaN > 2.5` is `False`, so the
`none` (NaN) case yields `false`. `|z| > 2.5 ↔ z² > 6.25`. -/
def isAnomaly (txns : List Txn) (t : Txn) : Bool :=
  match zsqScore (catAmounts txns t.category) t.amount with
  | none => false
  | some z2 => decide ((25 : ℚ) / 4 < z2)

/-- `anomalies = filtered[filtered["zscore"].abs() > 2.5]`
(`expense_tracker.py` line 247). -/
def anomalies (txns : List Txn) : List Txn :=
  txns.filter (isAnomaly txns)

/-- A raw row of the full-version script `new.py`. Its Amount column is used
numerically without a `to_numeric` pass, so the cell is modelled as pandas
reads a numeric CSV column: a number, or `NaN` (`none`) for a missing or
unparseable cell. -/
structure NewRow where
  dateStr : Str
  category : Str
  amountCell : Option ℚ
deriving DecidableEq, Repr

/-- A transaction retained by `new.py`'s cleaning. -/
structure NewTxn where
  date : Date
  category : Str
  amount : ℚ
deriving DecidableEq, Repr

/-- `new.py` lines 53-55: parse dates (`errors='coerce'`), drop rows with
unparseable dates, then `df = df[df['Amount'] > 0]`. pandas' `NaN > 0` is
`False`, so `NaN` amounts are removed along with zero and negative ones. -/
def newClean (rows : List NewRow) : List NewTxn :=
  rows.filterMap (fun r =>
    match parseDate r.dateStr, r.amountCell with
    | some d, some a => if 0 < a then some ⟨d, r.category, a⟩ else none
    | _, _ => none)

/-- Chronological order on dates (Bool. for filters). -/
def dateLe (a b : Date) : Bool :=
  decide (a.year < b.year
    ∨ (a.year = b.year ∧ (a.month < b.month
      ∨ (a.month = b.month ∧ a.day ≤ b.day))))

/-- `new.py` lines 66-69: the sidebar date-range and category filters, applied
to the cleaned table before the aggregations. -/
def newFiltered (lo hi : Date) (cats : List Str) (rows : List NewRow) :
    List NewTxn :=
  ((newClean rows).filter (fun t => dateLe lo t.date && dateLe t.date hi)).filter
    (fun t => cats.contains t.category)

/-- A Date cell of `app.py`/`3.py`'s dataframe: the raw string as read from
the CSV, or the parsed value that `df['Date'] = pd.to_datetime(...)` writes
over it (`none` is `NaT`). -/
inductive DateCell
  | rawCell (s : Str)
  | parsedCell (d : Option Date)
deriving DecidableEq, Repr

/-- A row of `app.py`/`3.py`'s dataframe around the cleaning step. -/
structure AppRow where
  date : DateCell
  category : Str
  amount : Str
deriving DecidableEq, Repr

/-- The date value of a cell (`to_datetime` is the identity on an
already-parsed datetime column). -/
def parseCell : DateCell → Option Date
  | .rawCell s => parseDate s
  | .parsedCell d => d

/-- The cleaning step of `app.py` lines 49-50 and `3.py` lines 92-93, with its
pandas in-place mutations made explicit by state passing:
`df['Date'] = pd.to_datetime(df['Date'], errors='coerce')` writes the parsed
column into the caller's table object, and `df.dropna(subset=['Date'],
inplace=True)` removes the `NaT` rows from that same object. The result is
`(value of df used downstream, content of the input table object after the
step)` : both are the mutated table. -/
def appNormalize (t : List AppRow) : List AppRow × List AppRow :=
  let parsed := t.map (fun r => { r with date := DateCell.parsedCell (parseCell r.date) })
  let kept := parsed.filter (fun r => (parseCell r.date).isSome)
  (kept, kept)

/-- Concrete scenario input: rows (2024-01-05, Food, 100), (2024-02-05, Food,
200), (2024-03-05, Food, 300), as raw CSV cells. -/
def scenarioRows : List RawRow :=
  [⟨strCodes "2024-01-05", strCodes "Food", strCodes "100"⟩,
   ⟨strCodes "2024-02-05", strCodes "Food", strCodes "200"⟩,
   ⟨strCodes "2024-03-05", strCodes "Food", strCodes "300"⟩]

/-- Claim C1: for every input table, cleaning drops exactly the rows whose
date fails to parse (so they are absent from the normalized table and every
aggregate over it), while a row whose amount fails to parse is never dropped:
it is retained with amount exactly 0. Conjuncts: (1) a row with unparseable
date cleans to nothing; (2) a row with parseable date and unparseable amount
cleans to a transaction with amount 0 and that transaction is in the
normalized table; (3) every transaction of the normalized table comes from an
input row whose date parsed. -/
theorem cleanRows_spec (rows : List RawRow) :
    (∀ r ∈ rows, parseDate r.dateStr = none → cleanRow r = none)
  ∧ (∀ r ∈ rows, ∀ d, parseDate r.dateStr = some d → parseAmount r.amountStr = none →
      cleanRow r = some ⟨d, normLabel r.category, 0⟩ ∧
      Txn.mk d (normLabel r.category) 0 ∈ cleanRows rows)
  ∧ (∀ t ∈ cleanRows rows, ∃ r ∈ rows, cleanRow r = some t ∧ (parseDate r.dateStr).isSome) := by
  refine ⟨?_, ?_, ?_⟩
  · intro r _ h
    simp [cleanRow, h]
  · intro r hr d hd ha
    have hc : cleanRow r = some ⟨d, normLabel r.category, 0⟩ := by
      simp [cleanRow, hd, ha]
    exact ⟨hc, List.mem_filterMap.mpr ⟨r, hr, hc⟩⟩
  · intro t ht
    obtain ⟨r, hr, hc⟩ := List.mem_filterMap.mp ht
    refine ⟨r, hr, hc, ?_⟩
    cases hp : parseDate r.dateStr with
    | none => simp [cleanRow, hp] at hc
    | some d => simp

/-- Claim C3: the forecast is present (a number) if and only if the filtered
data has at least 3 distinct periods; below that it is the distinct
unavailable state `none`, never a number. -/
theorem forecast_present_iff_three_periods (txns : List Txn) :
    (forecastNext txns).isSome ↔ 3 ≤ ((txns.map periodKey).dedup).length := by
  have hlen : (totalByPeriod txns).length = ((txns.map periodKey).dedup).length := by
    simp [totalByPeriod, List.length_insertionSort]
  have hiff : (forecastNext txns).isSome ↔ 3 ≤ (totalByPeriod txns).length := by
    unfold forecastNext
    by_cases h : 3 ≤ (totalByPeriod txns).length <;> simp [h]
  rw [hiff, hlen]

/-- Claim C4: for the input rows (2024-01-05, Food, 100), (2024-02-05, Food,
200), (2024-03-05, Food, 300), the per-period totals are [100, 200, 300], the
degree-1 least-squares fit over period indices 0..2 has slope 100 and
intercept 100, and the forecast (the line at period index 3) is 400. -/
theorem scenario_forecast_400 :
    ((totalByPeriod (cleanRows scenarioRows)).map (fun r => r.2) = [100, 200, 300])
  ∧ polyfit1 ((totalByPeriod (cleanRows scenarioRows)).map (fun r => r.2)) = (100, 100)
  ∧ forecastNext (cleanRows scenarioRows) = some 400 := by
  with_unfolding_all decide

/-- Claim C6: every row of the budget comparison table has
`percent = actual / budget * 100` when its budget is positive, and
`percent = 0` when its budget is zero (the zero-budget guard: no division by
zero, no non-finite value). -/
theorem budgetPct_spec (cats : List Str) (budgets : Str → ℚ) (txns : List Txn)
    (e : BudgetEntry) (he : e ∈ budgetTable cats budgets txns) :
    (0 < e.budget → e.percent = e.actual / e.budget * 100)
  ∧ (e.budget = 0 → e.percent = 0) := by
  have he' : e ∈ cats.map (fun c =>
      BudgetEntry.mk c (categoryTotal txns c) (budgets c)
        (budgetPct (categoryTotal txns c) (budgets c))) :=
    ((List.perm_insertionSort _ _).mem_iff).mp he
  obtain ⟨c, _, rfl⟩ := List.mem_map.mp he'
  constructor
  · intro hpos
    have hne : budgets c ≠ 0 := ne_of_gt hpos
    simp [budgetPct, hne]
  · intro hz
    simp only at hz
    simp [budgetPct, hz]

/-- Witness for C6: the one-category table with budget 0 and no transactions;
its percent is 0. -/
theorem budgetPct_spec_witness :
    (0 < (BudgetEntry.mk (strCodes "Food") 0 0 0).budget →
      (BudgetEntry.mk (strCodes "Food") 0 0 0).percent =
        (BudgetEntry.mk (strCodes "Food") 0 0 0).actual /
          (BudgetEntry.mk (strCodes "Food") 0 0 0).budget * 100)
  ∧ ((BudgetEntry.mk (strCodes "Food") 0 0 0).budget = 0 →
      (BudgetEntry.mk (strCodes "Food") 0 0 0).percent = 0) :=
  budgetPct_spec [strCodes "Food"] (fun _ => 0) []
    (BudgetEntry.mk (strCodes "Food") 0 0 0) (by with_unfolding_all decide)

/-- Claim C9 (counterexample): normalization in `app.py`/`3.py` is not
side-effect-free. On a one-row table whose date cell does not parse, the
caller's table object no longer holds its original content after the cleaning
step runs. -/
theorem appNormalize_mutates_input_cex :
    (appNormalize [⟨DateCell.rawCell (strCodes "x"), strCodes "Food", strCodes "10"⟩]).2
      ≠ [⟨DateCell.rawCell (strCodes "x"), strCodes "Food", strCodes "10"⟩] := by
  decide

/-- Claim C9 (amended): the `app.py`/`3.py` cleaning step mutates its input in
place: after it runs, the caller's table object holds exactly the normalized
table; consequently the input is left unchanged precisely when it was already
normalized (every date cell already parsed and non-null). -/
theorem appNormalize_mutates_input (t : List AppRow) :
    (appNormalize t).2 = (appNormalize t).1
  ∧ ((appNormalize t).2 = t ↔ ∀ r ∈ t, ∃ d, r.date = DateCell.parsedCell (some d)) := by
  refine ⟨rfl, ?_⟩
  constructor
  · intro h r hr
    have hr2 : r ∈ (appNormalize t).2 := by rw [h]; exact hr
    simp only [appNormalize, List.mem_filter] at hr2
    obtain ⟨hmem, hsome⟩ := hr2
    obtain ⟨r0, hr0, rfl⟩ := List.mem_map.mp hmem
    obtain ⟨d, hd⟩ := Option.isSome_iff_exists.mp hsome
    exact ⟨d, congrArg DateCell.parsedCell hd⟩
  · intro h
    have hmap : t.map (fun r => { r with date := DateCell.parsedCell (parseCell r.date) }) = t := by
      have hid : ∀ r ∈ t,
          ({ r with date := DateCell.parsedCell (parseCell r.date) } : AppRow) = id r := by
        intro r hr
        obtain ⟨d, hd⟩ := h r hr
        cases r with
        | mk dt c a =>
          simp at hd
          simp [hd, parseCell]
      simpa using List.map_congr_left hid
    simp only [appNormalize, hmap]
    apply List.filter_eq_self.mpr
    intro r hr
    obtain ⟨d, hd⟩ := h r hr
    simp [hd, parseCell]

/-- Claim C10: in the full-version script (`new.py`), every row retained by
cleaning has amount strictly greater than 0 — rows with zero, negative, or
NaN amounts are removed before the filters and aggregations — and the
filtered subset every aggregate is computed from inherits this. -/
theorem newClean_amounts_pos (rows : List NewRow) (lo hi : Date) (cats : List Str) :
    (∀ r ∈ newClean rows, 0 < r.amount)
  ∧ (∀ r ∈ newFiltered lo hi cats rows, 0 < r.amount) := by
  have h1 : ∀ r ∈ newClean rows, 0 < r.amount := by
    intro t ht
    obtain ⟨r, _, hc⟩ := List.mem_filterMap.mp ht
    cases hp : parseDate r.dateStr <;> cases ha : r.amountCell <;>
      simp [hp, ha] at hc
    rcases hc with ⟨hpos, ht⟩
    subst ht
    exact hpos
  refine ⟨h1, ?_⟩
  intro t ht
  exact h1 t (List.mem_filter.mp (List.mem_filter.mp ht).1).1

/-- The title step keeps a character's alphabetic status. -/
lemma titleChar_isAlpha (p : Bool) (c : Nat) : isAlphaCode (titleChar p c) = isAlphaCode c := by
  cases p <;>
  · unfold titleChar toLowerCode toUpperCode isAlphaCode isUpperCode isLowerCode
    split_ifs <;> simp_all <;> omega

/-- The title step is idempotent characterwise (at the same threaded state). -/
lemma titleChar_titleChar (p : Bool) (c : Nat) : titleChar p (titleChar p c) = titleChar p c := by
  cases p <;>
  · unfold titleChar toLowerCode toUpperCode isAlphaCode isUpperCode isLowerCode
    split_ifs <;> simp_all <;> omega

/-- `str.title` is idempotent from any starting state. -/
lemma titleAux_idem (cs : Str) : ∀ p, titleAux p (titleAux p cs) = titleAux p cs := by
  induction cs with
  | nil => intro p; rfl
  | cons c cs ih =>
    intro p
    simp only [titleAux]
    rw [titleChar_isAlpha, titleChar_titleChar, ih]

/-- The "previous character was alphabetic" state after scanning a string. -/
def exitState (p : Bool) : Str → Bool
  | [] => p
  | c :: cs => exitState (isAlphaCode c) cs

/-- `titleAux` distributes over append, threading the state. -/
lemma titleAux_append (xs ys : Str) : ∀ p,
    titleAux p (xs ++ ys) = titleAux p xs ++ titleAux (exitState p xs) ys := by
  induction xs with
  | nil => intro p; rfl
  | cons c xs ih =>
    intro p
    simp only [List.cons_append, titleAux, exitState, List.append_eq, ih]

/-- Title-casing fixes a string of non-alphabetic characters. -/
lemma titleAux_nonalpha (w : Str) (hw : ∀ x ∈ w, isAlphaCode x = false) :
    ∀ p, titleAux p w = w := by
  induction w with
  | nil => intro p; rfl
  | cons c cs ih =>
    intro p
    have hc := hw c (by simp)
    simp only [titleAux]
    rw [show titleChar p c = c by simp [titleChar, hc]]
    rw [ih (fun x hx => hw x (by simp [hx])) _]

/-- Scanning non-alphabetic characters from state `false` stays at `false`. -/
lemma exitState_false_nonalpha (w : Str) (hw : ∀ x ∈ w, isAlphaCode x = false) :
    exitState false w = false := by
  induction w with
  | nil => rfl
  | cons c cs ih =>
    simp only [exitState]
    rw [hw c (by simp)]
    exact ih (fun x hx => hw x (by simp [hx]))

/-- Whitespace is not alphabetic. -/
lemma isAlphaCode_of_space (x : Nat) (h : isSpaceCode x = true) : isAlphaCode x = false := by
  simp [isSpaceCode] at h
  simp [isAlphaCode, isUpperCode, isLowerCode]
  omega

/-- A string is its stripped core with whitespace runs on both ends. -/
lemma stripStr_decomp (s : Str) :
    ∃ w₁ w₂, (∀ x ∈ w₁, isSpaceCode x = true) ∧ (∀ x ∈ w₂, isSpaceCode x = true) ∧
      s = w₁ ++ (stripStr s ++ w₂) := by
  refine ⟨s.takeWhile isSpaceCode,
    ((s.dropWhile isSpaceCode).reverse.takeWhile isSpaceCode).reverse, ?_, ?_, ?_⟩
  · intro x hx; exact List.mem_takeWhile_imp hx
  · intro x hx
    rw [List.mem_reverse] at hx
    exact List.mem_takeWhile_imp hx
  · conv_lhs => rw [← List.takeWhile_append_dropWhile isSpaceCode s]
    congr 1
    conv_lhs => rw [← List.reverse_reverse (s.dropWhile isSpaceCode),
      ← List.takeWhile_append_dropWhile isSpaceCode (s.dropWhile isSpaceCode).reverse,
      List.reverse_append]
    rfl

/-- Stripping a title-cased string leaves it title-cased. -/
lemma titleAux_fix_stripStr (l : Str) (h : titleAux false l = l) :
    titleAux false (stripStr l) = stripStr l := by
  obtain ⟨w₁, w₂, hw₁, hw₂, hdecomp⟩ := stripStr_decomp l
  set core := stripStr l with hcore
  have h' := h
  rw [hdecomp, titleAux_append,
    titleAux_nonalpha w₁ (fun x hx => isAlphaCode_of_space x (hw₁ x hx)),
    exitState_false_nonalpha w₁ (fun x hx => isAlphaCode_of_space x (hw₁ x hx))] at h'
  have h2 := List.append_cancel_left h'
  rw [titleAux_append,
    titleAux_nonalpha w₂ (fun x hx => isAlphaCode_of_space x (hw₂ x hx))] at h2
  exact List.append_cancel_right h2

/-- The head of what `dropWhile` leaves does not satisfy the predicate. -/
lemma dropWhile_head_not (p : Nat → Bool) (l : Str) :
    ∀ a, (l.dropWhile p).head? = some a → p a = false := by
  induction l with
  | nil => intro a ha; simp at ha
  | cons c cs ih =>
    intro a ha
    rw [List.dropWhile_cons] at ha
    by_cases h : p c
    · rw [if_pos h] at ha
      exact ih a ha
    · rw [if_neg h] at ha
      simp at ha
      subst ha
      simpa using h

/-- `dropWhile` fixes a list whose head does not satisfy the predicate. -/
lemma dropWhile_eq_self_of_head (p : Nat → Bool) (l : Str)
    (h : ∀ a, l.head? = some a → p a = false) : l.dropWhile p = l := by
  cases l with
  | nil => rfl
  | cons c cs =>
    have := h c rfl
    simp [List.dropWhile_cons, this]

/-- `str.strip` is idempotent. -/
lemma stripStr_idem (s : Str) : stripStr (stripStr s) = stripStr s := by
  have hm : s.dropWhile isSpaceCode
      = stripStr s ++ ((s.dropWhile isSpaceCode).reverse.takeWhile isSpaceCode).reverse := by
    conv_lhs => rw [← List.reverse_reverse (s.dropWhile isSpaceCode),
      ← List.takeWhile_append_dropWhile isSpaceCode (s.dropWhile isSpaceCode).reverse,
      List.reverse_append]
    rfl
  have hhead : ∀ a, (stripStr s).head? = some a → isSpaceCode a = false := by
    intro a ha
    have hm' : (s.dropWhile isSpaceCode).head? = some a := by
      rw [hm, List.head?_append, ha]
      rfl
    exact dropWhile_head_not _ _ a hm'
  have hlast : ∀ a, (stripStr s).reverse.head? = some a → isSpaceCode a = false := by
    intro a ha
    rw [show stripStr s = ((s.dropWhile isSpaceCode).reverse.dropWhile isSpaceCode).reverse
        from rfl, List.reverse_reverse] at ha
    exact dropWhile_head_not _ _ a ha
  show (((stripStr s).dropWhile isSpaceCode).reverse.dropWhile isSpaceCode).reverse = stripStr s
  rw [dropWhile_eq_self_of_head _ _ hhead, dropWhile_eq_self_of_head _ _ hlast,
    List.reverse_reverse]

/-- Claim C8: normalization of category and user values is idempotent — for
every input string, applying title-case plus trim twice yields the same
result as applying it once. -/
theorem normLabel_idempotent (s : Str) : normLabel (normLabel s) = normLabel s := by
  unfold normLabel titleCase
  rw [titleAux_fix_stripStr _ (titleAux_idem s false)]
  exact stripStr_idem _

/-- Weak chronological order plus distinctness gives strict order. -/
lemma pkeyLe_ne_lt {a b : Nat × Nat} (hle : pkeyLe a b) (hne : a ≠ b) : pkeyLt a b := by
  rcases a with ⟨a1, a2⟩
  rcases b with ⟨b1, b2⟩
  have hne' : a1 ≠ b1 ∨ a2 ≠ b2 := by
    by_contra hc
    push_neg at hc
    exact hne (by simp [hc.1, hc.2])
  unfold pkeyLe at hle
  unfold pkeyLt
  rcases hne' with h | h <;> omega

/-- Claim C2: for every non-empty filtered transaction set, the monthly
aggregate is keyed by the `(year, month)` period key — its keys are exactly
the distinct period keys of the data — and its rows are in strictly
ascending (chronological) period order. -/
theorem totalByPeriod_sorted (txns : List Txn) (hne : txns ≠ []) :
    List.Pairwise (fun a b => pkeyLt a.1 b.1) (totalByPeriod txns)
  ∧ (∀ k, (∃ s, (k, s) ∈ totalByPeriod txns) ↔ ∃ t ∈ txns, periodKey t = k) := by
  have hsorted : List.Sorted pkeyLe
      (List.insertionSort pkeyLe (txns.map periodKey).dedup) :=
    List.sorted_insertionSort pkeyLe _
  have hnodup : (List.insertionSort pkeyLe (txns.map periodKey).dedup).Nodup :=
    (List.perm_insertionSort pkeyLe _).symm.nodup (List.nodup_dedup _)
  constructor
  · unfold totalByPeriod
    rw [List.pairwise_map]
    exact (hsorted.and hnodup).imp (fun hab => pkeyLe_ne_lt hab.1 hab.2)
  · intro k
    constructor
    · rintro ⟨s, hks⟩
      obtain ⟨k', hk', heq⟩ := List.mem_map.mp hks
      obtain ⟨rfl, -⟩ := Prod.mk.injEq .. ▸ heq
      have hk2 : k' ∈ (txns.map periodKey).dedup :=
        (List.perm_insertionSort pkeyLe _).subset hk'
      obtain ⟨t, ht, hpt⟩ := List.mem_map.mp (List.mem_dedup.mp hk2)
      exact ⟨t, ht, hpt⟩
    · rintro ⟨t, ht, rfl⟩
      have hk1 : periodKey t ∈ (txns.map periodKey).dedup :=
        List.mem_dedup.mpr (List.mem_map_of_mem _ ht)
      have hk2 : periodKey t ∈ List.insertionSort pkeyLe (txns.map periodKey).dedup :=
        ((List.perm_insertionSort pkeyLe _).symm).subset hk1
      exact ⟨_, List.mem_map_of_mem _ hk2⟩

/-- A one-transaction sample table. -/
def sampleTxns : List Txn := [⟨⟨2024, 1, 5⟩, strCodes "Food", 100⟩]

/-- Witness for C2 at the one-transaction sample table. -/
theorem totalByPeriod_sorted_witness :
    sampleTxns ≠ []
  ∧ (List.Pairwise (fun a b => pkeyLt a.1 b.1) (totalByPeriod sampleTxns)
      ∧ (∀ k, (∃ s, (k, s) ∈ totalByPeriod sampleTxns) ↔ ∃ t ∈ sampleTxns, periodKey t = k)) :=
  ⟨by decide, totalByPeriod_sorted sampleTxns (by decide)⟩

/-- Splitting a sum of mapped values along a Boolean predicate. -/
lemma sum_filter_split (p : Txn → Bool) (f : Txn → ℚ) (l : List Txn) :
    ((l.filter p).map f).sum + ((l.filter (fun a => !(p a))).map f).sum = (l.map f).sum := by
  induction l with
  | nil => simp
  | cons a l ih =>
    by_cases h : p a <;> simp [List.filter_cons, h] <;> linarith [ih]

/-- Grouping is a partition: summing the per-key filtered sums over a
duplicate-free key list covering the data recovers the total sum. -/
lemma sum_over_partition (key : Txn → Str) (f : Txn → ℚ) :
    ∀ (keys : List Str) (l : List Txn), keys.Nodup → (∀ a ∈ l, key a ∈ keys) →
      (keys.map (fun k => ((l.filter (fun a => key a = k)).map f).sum)).sum
        = (l.map f).sum := by
  intro keys
  induction keys with
  | nil =>
    intro l _ hcov
    cases l with
    | nil => simp
    | cons a l => exact absurd (hcov a (by simp)) (by simp)
  | cons k ks ih =>
    intro l hnd hcov
    have hnd' := List.nodup_cons.mp hnd
    have hcong : ∀ k' ∈ ks,
        ((l.filter (fun a => key a = k')).map f).sum
          = (((l.filter (fun a => !(key a = k : Bool))).filter (fun a => key a = k')).map f).sum := by
      intro k' hk'
      have hkk : k' ≠ k := fun h => hnd'.1 (h ▸ hk')
      rw [List.filter_filter]
      have hfil : List.filter (fun a => decide (key a = k')) l
          = List.filter (fun a => decide (key a = k') && !decide (key a = k)) l := by
        apply List.filter_congr
        intro a _
        by_cases h : key a = k'
        · simp [h, hkk]
        · simp [h]
      rw [hfil]
    rw [List.map_cons, List.sum_cons, List.map_congr_left hcong,
      ih (l.filter (fun a => !(key a = k : Bool))) hnd'.2 ?_]
    · exact sum_filter_split (fun a => key a = k) f l
    · intro a ha
      rcases List.mem_filter.mp ha with ⟨hal, hak⟩
      have := hcov a hal
      simp at hak
      simp [hak] at this
      exact this

/-- Claim C5: the per-category totals sum to the total of all filtered
amounts — grouping by category is a partition preserving the total. -/
theorem totalByCategory_sum_eq_total (txns : List Txn) :
    ((totalByCategory txns).map (fun r => r.2)).sum = sumAmounts txns := by
  unfold totalByCategory
  have hperm := (List.perm_insertionSort (fun a b : Str × ℚ => b.2 ≤ a.2)
    (((txns.map Txn.category).dedup).map
      (fun c => (c, sumAmounts (txns.filter (fun t => t.category = c)))))).map
      (fun r : Str × ℚ => r.2)
  rw [hperm.sum_eq, List.map_map]
  have hpart := sum_over_partition Txn.category Txn.amount
    ((txns.map Txn.category).dedup) txns (List.nodup_dedup _)
    (fun a ha => List.mem_dedup.mpr (List.mem_map_of_mem _ ha))
  simpa [sumAmounts, Function.comp] using hpart

/-- A list of equal values sums to length times the value. -/
lemma sum_const_of_all_eq (l : List ℚ) (v : ℚ) (h : ∀ a ∈ l, a = v) :
    l.sum = l.length * v := by
  induction l with
  | nil => simp
  | cons a t ih =>
    have ha := h a (by simp)
    have ht := ih (fun b hb => h b (by simp [hb]))
    rw [List.sum_cons, ht, List.length_cons, ha]
    push_cast
    ring

/-- A group whose amounts are all equal (in particular a singleton group) has
zero variance. -/
lemma popVar_zero_of_const (l : List ℚ) (h : ∀ a ∈ l, ∀ b ∈ l, a = b) : popVar l = 0 := by
  cases l with
  | nil => simp [popVar, listMean]
  | cons a t =>
    have hv : ∀ b ∈ a :: t, b = a := fun b hb => h b hb a (by simp)
    have hmean : listMean (a :: t) = a := by
      unfold listMean
      rw [sum_const_of_all_eq _ a hv]
      have hlen : ((a :: t).length : ℚ) ≠ 0 := by
        rw [List.length_cons]
        push_cast
        intro hh
        have hnn : (0 : ℚ) ≤ (t.length : ℚ) := Nat.cast_nonneg _
        linarith
      field_simp
    unfold popVar
    rw [hmean]
    rw [List.sum_eq_zero ?_]
    · simp
    · intro x hx
      obtain ⟨b, hb, rfl⟩ := List.mem_map.mp hx
      rw [hv b hb]
      ring

/-- Claim C7: in a category whose amounts have zero variance (all equal,
including a single transaction), no transaction is flagged anomalous; no such
transaction reaches the anomaly list; and the undefined (NaN) z-score never
propagates: every listed anomaly has a defined z-score. -/
theorem zero_variance_not_anomalous (txns : List Txn) (c : Str)
    (hconst : ∀ a ∈ catAmounts txns c, ∀ b ∈ catAmounts txns c, a = b) :
    (∀ t ∈ txns, t.category = c → isAnomaly txns t = false)
  ∧ (∀ t ∈ anomalies txns, t.category ≠ c)
  ∧ (∀ t ∈ anomalies txns, (zsqScore (catAmounts txns t.category) t.amount).isSome) := by
  have hvar : popVar (catAmounts txns c) = 0 := popVar_zero_of_const _ hconst
  have hflag : ∀ t ∈ txns, t.category = c → isAnomaly txns t = false := by
    intro t _ htc
    unfold isAnomaly
    rw [htc]
    simp [zsqScore, hvar]
  refine ⟨hflag, ?_, ?_⟩
  · intro t ht htc
    have hmem := List.mem_filter.mp ht
    rw [hflag t hmem.1 htc] at hmem
    exact absurd hmem.2 (by simp)
  · intro t ht
    have h2 := (List.mem_filter.mp ht).2
    unfold isAnomaly at h2
    cases hz : zsqScore (catAmounts txns t.category) t.amount with
    | none => rw [hz] at h2; simp at h2
    | some z => simp [hz]

/-- Witness for C7 at the sample table: its single Food transaction is a
zero-variance group, and nothing is flagged. -/
theorem zero_variance_not_anomalous_witness :
    (∀ t ∈ sampleTxns, t.category = strCodes "Food" → isAnomaly sampleTxns t = false)
  ∧ (∀ t ∈ anomalies sampleTxns, t.category ≠ strCodes "Food")
  ∧ (∀ t ∈ anomalies sampleTxns,
      (zsqScore (catAmounts sampleTxns t.category) t.amount).isSome) :=
  zero_variance_not_anomalous sampleTxns (strCodes "Food") (by with_unfolding_all decide)
